import Mathlib

/-!
Shallow embedding of the custom database engine (src/final.cpp):
the storage engine (`Table` with its secondary index and the binary
persistence codec) and the command tokenizer / CREATE DATABASE path.

Modelling conventions:
* `std::unordered_map` is modelled as an association list; `operator[]`
  assignment replaces the value of an existing key and appends a fresh key.
* `std::unordered_set<int>` is modelled as a duplicate-free `List Int`.
* C++ `int` is modelled as `Int` (overflow only matters in the codec, where
  the 32-bit two-complement encoding is explicit).
* C++ exceptions of the mutating member functions are modelled by returning
  the mutated-so-far state together with `Option String` (the message of the
  thrown `runtime_error`); `none` means normal return.
-/

section AssocList

variable {α β : Type} [DecidableEq α]

/-- Lookup in an association list (models `unordered_map::find`). -/
def alistFind? : List (α × β) → α → Option β
  | [], _ => none
  | p :: ps, k => if p.1 = k then some p.2 else alistFind? ps k

/-- Assignment `m[k] = v` (models `unordered_map::operator[]` + assignment):
replaces the value at an existing key, appends a fresh key. -/
def alistInsert (l : List (α × β)) (k : α) (v : β) : List (α × β) :=
  if (alistFind? l k).isSome then
    l.map (fun p => if p.1 = k then (k, v) else p)
  else l ++ [(k, v)]

/-- Key removal (models `unordered_map::erase(key)`). -/
def alistErase : List (α × β) → α → List (α × β)
  | [], _ => []
  | p :: ps, k => if p.1 = k then alistErase ps k else p :: alistErase ps k

end AssocList

/-- Insertion into an id set (models `unordered_set<int>::insert`). -/
def setInsert (l : List Int) (x : Int) : List Int :=
  if l.contains x then l else l ++ [x]

-- ===================== Storage engine data model =====================

/-- `enum class ColumnType { INT, STRING }`. -/
inductive ColumnType where
  | INT
  | STRING
deriving DecidableEq, Repr

/-- `struct Column { string name; ColumnType type; }`. -/
structure Column where
  name : String
  type : ColumnType
deriving DecidableEq, Repr

/-- One cell of a row: `variant<int, string>`. -/
inductive Value where
  | intV (v : Int)
  | strV (s : String)
deriving DecidableEq, Repr

/-- `using Row = vector<variant<int, string>>`. -/
def Row : Type := List Value

instance : DecidableEq Row := inferInstanceAs (DecidableEq (List Value))

/-- The `Table` class state: schema, id-keyed row map, optional secondary
index (map from string value to id set) and the indexed column. -/
structure Table where
  schema : List Column
  data : List (Int × Row)
  stringIndex : Option (List (String × List Int))
  indexedColumn : Nat
deriving DecidableEq

/-- Checks whether a value has the type required by a column
(the two legs of `validateRow`'s per-column test). -/
def valueMatches : ColumnType → Value → Bool
  | .INT, .intV _ => true
  | .STRING, .strV _ => true
  | _, _ => false

/-- `Table::validateRow`: size check, then positional type check.
Returns the thrown message, `none` on success. -/
def validateRow (schema : List Column) (row : Row) : Option String :=
  if row.length ≠ schema.length then some "Row size does not match schema"
  else if (schema.zip row).all (fun p => valueMatches p.1.type p.2) then none
  else some "Type mismatch in row"

/-- The `Table` constructor: rejects an empty schema or a non-INT first
column, otherwise starts with no rows and no index. -/
def Table.new (s : List Column) : Except String Table :=
  match s with
  | [] => .error "First column must be INT for primary key"
  | c :: _ =>
    if c.type ≠ ColumnType.INT then .error "First column must be INT for primary key"
    else .ok ⟨s, [], none, 0⟩

/-- `Table::updateIndex`: if an index exists on a positive column, add the
id under the row's value at that column.  `std::get<string>` on a non-string
cell throws `bad_variant_access`; out-of-range `operator[]` is modelled as
an error (unreachable after `validateRow`). -/
def Table.updateIndex (t : Table) (id : Int) (row : Row) : Table × Option String :=
  match t.stringIndex with
  | none => (t, none)
  | some idx =>
    if t.indexedColumn = 0 then (t, none)
    else
      match (row : List Value).get? t.indexedColumn with
      | none => (t, some "index out of range")
      | some (.intV _) => (t, some "bad variant access")
      | some (.strV value) =>
        let bucket := (alistFind? idx value).getD []
        ({ t with stringIndex := some (alistInsert idx value (setInsert bucket id)) }, none)

/-- `Table::removeFromIndex`: looks the id up in `data` and, when found,
erases the id from the bucket of the row's indexed value, dropping the
bucket when it becomes empty.  (`(*stringIndex)[value]` default-inserts an
empty bucket when absent; the trailing empty-bucket erase removes it again,
so the net effect on an absent bucket is no change.) -/
def Table.removeFromIndex (t : Table) (id : Int) : Table × Option String :=
  match t.stringIndex with
  | none => (t, none)
  | some idx =>
    if t.indexedColumn = 0 then (t, none)
    else
      match alistFind? t.data id with
      | none => (t, none)
      | some row =>
        match (row : List Value).get? t.indexedColumn with
        | none => (t, some "index out of range")
        | some (.intV _) => (t, some "bad variant access")
        | some (.strV value) =>
          let bucket := ((alistFind? idx value).getD []).erase id
          let idx1 := if bucket.isEmpty then alistErase idx value else alistInsert idx value bucket
          ({ t with stringIndex := some idx1 }, none)

/-- `Table::insert`. -/
def Table.insert (t : Table) (row : Row) : Table × Option String :=
  match validateRow t.schema row with
  | some e => (t, some e)
  | none =>
    match (row : List Value).get? 0 with
    | none => (t, some "index out of range")
    | some (.strV _) => (t, some "bad variant access")
    | some (.intV id) =>
      if (alistFind? t.data id).isSome then
        (t, some ("Duplicate ID: " ++ toString id ++ " already exists"))
      else
        Table.updateIndex { t with data := alistInsert t.data id row } id row

/-- `Table::get`. -/
def Table.get (t : Table) (id : Int) : Except String Row :=
  match alistFind? t.data id with
  | some r => .ok r
  | none => .error "ID not found"

/-- `Table::update`. -/
def Table.update (t : Table) (id : Int) (newRow : Row) : Table × Option String :=
  if (alistFind? t.data id).isNone then (t, some "ID not found")
  else
    match validateRow t.schema newRow with
    | some e => (t, some e)
    | none =>
      match (newRow : List Value).get? 0 with
      | none => (t, some "index out of range")
      | some (.strV _) => (t, some "bad variant access")
      | some (.intV nid) =>
        if nid ≠ id then (t, some "Cannot change primary key")
        else
          match t.removeFromIndex id with
          | (t1, some e) => (t1, some e)
          | (t1, none) =>
            Table.updateIndex { t1 with data := alistInsert t1.data id newRow } id newRow

/-- `Table::remove`: `if (data.erase(id)) removeFromIndex(id);` — the row is
erased from `data` first, and only then is `removeFromIndex` called. -/
def Table.remove (t : Table) (id : Int) : Table × Option String :=
  let present := (alistFind? t.data id).isSome
  let t1 := { t with data := alistErase t.data id }
  if present then t1.removeFromIndex id else (t1, none)

/-- The index-building loop of `Table::createIndex`: on each row, read the
string at the indexed column and add the id to its bucket. -/
def buildIndexLoop (columnIndex : Nat) :
    List (Int × Row) → List (String × List Int) → List (String × List Int) × Option String
  | [], idx => (idx, none)
  | p :: ps, idx =>
    match (p.2 : List Value).get? columnIndex with
    | none => (idx, some "index out of range")
    | some (.intV _) => (idx, some "bad variant access")
    | some (.strV value) =>
      buildIndexLoop columnIndex ps
        (alistInsert idx value (setInsert ((alistFind? idx value).getD []) p.1))

/-- `Table::createIndex`: rejects column 0, out-of-range columns and non
STRING columns; otherwise installs a fresh index built from all rows. -/
def Table.createIndex (t : Table) (columnIndex : Nat) : Table × Option String :=
  match t.schema.get? columnIndex with
  | none => (t, some "Invalid column for indexing")
  | some c =>
    if columnIndex = 0 ∨ c.type ≠ ColumnType.STRING then
      (t, some "Invalid column for indexing")
    else
      let r := buildIndexLoop columnIndex t.data []
      ({ t with stringIndex := some r.1, indexedColumn := columnIndex }, r.2)

/-- `Table::getAllRows`. -/
def Table.getAllRows (t : Table) : List Row :=
  t.data.map (fun p => p.2)

-- ===================== Persistence codec =====================

/-- Little-endian byte encoding of a natural number on `k` bytes
(the raw `ofs.write` of a fixed-width integer). -/
def byteLE : Nat → Nat → List Nat
  | 0, _ => []
  | k + 1, n => (n % 256) :: byteLE k (n / 256)

/-- Little-endian byte decoding. -/
def unByteLE : List Nat → Nat
  | [] => 0
  | b :: bs => b + 256 * unByteLE bs

/-- `size_t` written on 8 bytes. -/
def encSize (n : Nat) : List Nat := byteLE 8 (n % 18446744073709551616)

/-- 32-bit `int` written on 4 bytes, two-complement. -/
def encInt (v : Int) : List Nat := byteLE 4 (v % 4294967296).toNat

/-- Reads 4 bytes back as a signed 32-bit integer. -/
def decInt (bs : List Nat) : Int :=
  let n := unByteLE bs
  if n % 4294967296 < 2147483648 then ((n % 4294967296 : Nat) : Int)
  else ((n % 4294967296 : Nat) : Int) - 4294967296

/-- The bytes of a `std::string` (one byte per character of the model). -/
def encStr (s : String) : List Nat := s.data.map Char.toNat

/-- The numeric tag of a `ColumnType` as stored on disk
(the underlying value of the C++ enum). -/
def colTypeTag : ColumnType → Int
  | .INT => 0
  | .STRING => 1

/-- One schema column record: `{nameLength:int32, nameBytes, typeTag:int32}`. -/
def encColumn (c : Column) : List Nat :=
  encInt (c.name.data.length : Int) ++ encStr c.name ++ encInt (colTypeTag c.type)

/-- One field of a row: `int32` for an integer, `{length:int32, bytes}` for a
string. -/
def encField : Value → List Nat
  | .intV v => encInt v
  | .strV s => encInt (s.data.length : Int) ++ encStr s

/-- `Table::save`: schema column count, column records, row count, then for
each row its id followed by every field. -/
def Table.save (t : Table) : List Nat :=
  encSize t.schema.length ++ t.schema.flatMap encColumn ++
  encSize t.data.length ++
  t.data.flatMap (fun p => encInt p.1 ++ (p.2 : List Value).flatMap encField)

/-- `ifs.read(buf, n)`: consume exactly `n` bytes or fail. -/
def readBytes : Nat → List Nat → Except String (List Nat × List Nat)
  | 0, f => .ok ([], f)
  | _ + 1, [] => .error "unexpected end of file"
  | n + 1, b :: f =>
    match readBytes n f with
    | .error e => .error e
    | .ok (bs, rest) => .ok (b :: bs, rest)

/-- Read an 8-byte `size_t`. -/
def readSize (f : List Nat) : Except String (Nat × List Nat) :=
  match readBytes 8 f with
  | .error e => .error e
  | .ok (bs, rest) => .ok (unByteLE bs, rest)

/-- Read a 4-byte `int`. -/
def readInt (f : List Nat) : Except String (Int × List Nat) :=
  match readBytes 4 f with
  | .error e => .error e
  | .ok (bs, rest) => .ok (decInt bs, rest)

/-- Read `n` raw bytes as a string. -/
def readStr (n : Nat) (f : List Nat) : Except String (String × List Nat) :=
  match readBytes n f with
  | .error e => .error e
  | .ok (bs, rest) => .ok (String.mk (bs.map Char.ofNat), rest)

/-- Read one stored column record `(name, typeTag)`.  A negative stored
length makes the C++ `string(nameLen, 0)` constructor throw; modelled as an
error (never exercised by the theorems below). -/
def readColRecord (f : List Nat) : Except String ((String × Int) × List Nat) :=
  match readInt f with
  | .error e => .error e
  | .ok (len, f1) =>
    if len < 0 then .error "invalid length"
    else
      match readStr len.toNat f1 with
      | .error e => .error e
      | .ok (name, f2) =>
        match readInt f2 with
        | .error e => .error e
        | .ok (tag, f3) => .ok ((name, tag), f3)

/-- The schema-verification loop of `Table::load`: read each stored column
record and compare it against the in-memory schema, throwing
`Schema mismatch` at the first disagreement. -/
def checkSchemaCols : List Column → List Nat → Except String (List Nat)
  | [], f => .ok f
  | c :: cs, f =>
    match readColRecord f with
    | .error e => .error e
    | .ok (cr, f1) =>
      if cr.1 ≠ c.name ∨ cr.2 ≠ colTypeTag c.type then .error "Schema mismatch"
      else checkSchemaCols cs f1

/-- Read one field of a row according to the column type. -/
def readField (ct : ColumnType) (f : List Nat) : Except String (Value × List Nat) :=
  match ct with
  | .INT =>
    match readInt f with
    | .error e => .error e
    | .ok (v, f1) => .ok (.intV v, f1)
  | .STRING =>
    match readInt f with
    | .error e => .error e
    | .ok (len, f1) =>
      if len < 0 then .error "invalid length"
      else
        match readStr len.toNat f1 with
        | .error e => .error e
        | .ok (s, f2) => .ok (.strV s, f2)

/-- Read all fields of one row, in schema order. -/
def readRowFields : List Column → List Nat → Except String (Row × List Nat)
  | [], f => .ok (([] : List Value), f)
  | c :: cs, f =>
    match readField c.type f with
    | .error e => .error e
    | .ok (v, f1) =>
      match readRowFields cs f1 with
      | .error e => .error e
      | .ok (row, f2) => .ok (((v :: (row : List Value) : List Value) : Row), f2)

/-- The row-reading loop of `Table::load`: `dataSize` times, read an id and
a row, store it and update the index; an error part-way keeps the rows read
so far (the C++ exception propagates with `this` already mutated). -/
def loadRows (schema : List Column) : Nat → Table → List Nat → Table × Option String
  | 0, t, _ => (t, none)
  | k + 1, t, f =>
    match readInt f with
    | .error e => (t, some e)
    | .ok (id, f1) =>
      match readRowFields schema f1 with
      | .error e => (t, some e)
      | .ok (row, f2) =>
        match Table.updateIndex { t with data := alistInsert t.data id row } id row with
        | (t2, some e) => (t2, some e)
        | (t2, none) => loadRows schema k t2 f2

/-- `Table::load`: an unopenable (absent) file returns immediately with the
table untouched; otherwise `data` (and the index buckets, when an index
exists) are cleared up front, then the stored schema is verified against
the in-memory one and the rows are read back. -/
def Table.load (t : Table) (file : Option (List Nat)) : Table × Option String :=
  match file with
  | none => (t, none)
  | some f =>
    let t0 : Table :=
      { t with data := [], stringIndex := t.stringIndex.map (fun _ => []) }
    match readSize f with
    | .error e => (t0, some e)
    | .ok (schemaSize, f1) =>
      if schemaSize ≠ t0.schema.length then (t0, some "Schema mismatch")
      else
        match checkSchemaCols t0.schema f1 with
        | .error e => (t0, some e)
        | .ok f2 =>
          match readSize f2 with
          | .error e => (t0, some e)
          | .ok (dataSize, f3) => loadRows t0.schema dataSize t0 f3

-- ===================== Tokenizer =====================

/-- `TokenType` of the command interpreter. -/
inductive TokenType where
  | KEYWORD
  | INT
  | STRING
  | PUNCTUATION
  | IDENTIFIER
deriving DecidableEq, Repr

/-- A classified lexical token. -/
structure Token where
  type : TokenType
  value : String
deriving DecidableEq, Repr

/-- The single-quote character (ASCII 39). -/
def quoteChar : Char := Char.ofNat 39

/-- C `isspace` in the default locale. -/
def isSpaceChar (c : Char) : Bool :=
  c.toNat = 32 ∨ c.toNat = 9 ∨ c.toNat = 10 ∨ c.toNat = 11 ∨ c.toNat = 12 ∨ c.toNat = 13

/-- The four one-character punctuation tokens. -/
def isPunctChar (c : Char) : Bool :=
  c = '(' ∨ c = ')' ∨ c = ',' ∨ c = '='

/-- The fixed keyword set of `Database::addToken`. -/
def keywords : List String :=
  ["CREATE", "DATABASE", "USE", "SHOW", "DATABASES", "DROP",
   "INSERT", "INTO", "VALUES", "SELECT", "FROM", "WHERE",
   "UPDATE", "SET", "DELETE"]

/-- The token classification performed by `Database::addToken`:
keyword, all-digit integer, otherwise identifier. -/
def classify (tok : List Char) : Token :=
  if keywords.contains (String.mk tok) then ⟨TokenType.KEYWORD, String.mk tok⟩
  else if tok.all Char.isDigit then ⟨TokenType.INT, String.mk tok⟩
  else ⟨TokenType.IDENTIFIER, String.mk tok⟩

/-- `Database::addToken`: classify the flushed accumulator and push it. -/
def addToken (tokens : List Token) (tok : List Char) : List Token :=
  tokens ++ [classify tok]

/-- The loop state of `Database::tokenize`: tokens emitted so far, the
character accumulator `token` and the `inString` flag. -/
structure LexState where
  tokens : List Token
  token : List Char
  inString : Bool
deriving DecidableEq, Repr

/-- One iteration of the character loop of `Database::tokenize`. -/
def lexStep (st : LexState) (c : Char) : LexState :=
  if c = quoteChar then
    if st.inString then ⟨st.tokens ++ [⟨TokenType.STRING, String.mk st.token⟩], [], false⟩
    else ⟨st.tokens, st.token, true⟩
  else if st.inString then ⟨st.tokens, st.token ++ [c], true⟩
  else if isSpaceChar c then
    if st.token.isEmpty then st else ⟨addToken st.tokens st.token, [], false⟩
  else if isPunctChar c then
    ⟨(if st.token.isEmpty then st.tokens else addToken st.tokens st.token) ++
       [⟨TokenType.PUNCTUATION, String.mk [c]⟩], [], false⟩
  else ⟨st.tokens, st.token ++ [c], st.inString⟩

/-- The initial lexer state. -/
def lexInit : LexState := ⟨[], [], false⟩

/-- `Database::tokenize`: run the loop over the line and flush a non-empty
accumulator through `addToken` at end of input. -/
def tokenize (input : String) : List Token :=
  let st := input.data.foldl lexStep lexInit
  if st.token.isEmpty then st.tokens else addToken st.tokens st.token

-- ===================== Database (CREATE DATABASE path) =====================

/-- The fixed two-column schema used by `parseCreate`. -/
def fixedSchema : List Column :=
  [⟨"id", ColumnType.INT⟩, ⟨"name", ColumnType.STRING⟩]

/-- Registry state of the `Database` class: name-keyed tables and the
currently selected name (`currentDb`/`currentDbName`, always in sync). -/
structure DBState where
  databases : List (String × Table)
  currentDb : Option String
deriving DecidableEq

/-- A file system: file name to contents (a missing entry models a file
that `ifstream` fails to open). -/
def FS : Type := List (String × List Nat)

/-- `Database::expect` (value-and-type form): returns the thrown message. -/
def expectTok (tokens : List Token) (i : Nat) (value : String) (ty : TokenType) :
    Option String :=
  match tokens.get? i with
  | some tk =>
    if tk.type = ty ∧ tk.value = value then none
    else some ("Expected " ++ value ++ " at position " ++ toString i)
  | none => some ("Expected " ++ value ++ " at position " ++ toString i)

/-- `Database::parseCreate`: refuses when a database is already selected;
otherwise checks the grammar, refuses a registered name, then constructs
the table, registers it, loads its persisted file, builds the index on
column 1 and selects it.  The pair carries the (possibly partially
mutated) registry state and the thrown message, if any. -/
def parseCreate (st : DBState) (fs : FS) (tokens : List Token) :
    DBState × Option String :=
  match st.currentDb with
  | some _ => (st, some "Database already selected. Use DROP DATABASE first.")
  | none =>
    match expectTok tokens 0 "CREATE" TokenType.KEYWORD with
    | some e => (st, some e)
    | none =>
      match expectTok tokens 1 "DATABASE" TokenType.KEYWORD with
      | some e => (st, some e)
      | none =>
        match tokens.get? 2 with
        | none => (st, some "Expected database name")
        | some tk =>
          if tk.type ≠ TokenType.IDENTIFIER then (st, some "Expected database name")
          else
            let dbName := tk.value
            if (alistFind? st.databases dbName).isSome then
              (st, some "Database already exists")
            else
              match Table.new fixedSchema with
              | .error e => (st, some e)
              | .ok t =>
                let st1 : DBState :=
                  { st with databases := alistInsert st.databases dbName t }
                match t.load (alistFind? fs (dbName ++ ".dat")) with
                | (t1, some e) =>
                  ({ st1 with databases := alistInsert st1.databases dbName t1 }, some e)
                | (t1, none) =>
                  match t1.createIndex 1 with
                  | (t2, some e) =>
                    ({ st1 with databases := alistInsert st1.databases dbName t2 }, some e)
                  | (t2, none) =>
                    (⟨alistInsert st1.databases dbName t2, some dbName⟩, none)

-- ===================== Spec-side decoders and predicates =====================

/-- Read `n` stored column records in sequence. -/
def readColRecords : Nat → List Nat → Except String (List (String × Int) × List Nat)
  | 0, f => .ok ([], f)
  | k + 1, f =>
    match readColRecord f with
    | .error e => .error e
    | .ok (cr, f1) =>
      match readColRecords k f1 with
      | .error e => .error e
      | .ok (crs, f2) => .ok (cr :: crs, f2)

/-- The stored schema header of a persisted file, as the spec speaks of it:
the column count followed by that many `(name, typeTag)` records.  Used to
state schema-mismatch claims; `Table.load` itself interleaves reading with
comparison and this decoder is proved to correspond to it. -/
def readStoredSchema (f : List Nat) :
    Except String ((Nat × List (String × Int)) × List Nat) :=
  match readSize f with
  | .error e => .error e
  | .ok (cnt, f1) =>
    match readColRecords cnt f1 with
    | .error e => .error e
    | .ok (cols, f2) => .ok ((cnt, cols), f2)

/-- A character that the tokenizer simply accumulates: not a quote, not
whitespace, not punctuation. -/
def isPlainChar (c : Char) : Bool :=
  !(c = quoteChar : Bool) && !(isSpaceChar c) && !(isPunctChar c)

/-- A value that matches a column type and survives the 32-bit codec:
integers within `int` range, strings shorter than 2^31. -/
def encValueOk : ColumnType → Value → Bool
  | .INT, .intV n => decide (-2147483648 ≤ n) && decide (n < 2147483648)
  | .STRING, .strV s => decide (s.data.length < 2147483648)
  | _, _ => false

/-- A schema-valid row whose values survive the codec. -/
def encRowOk (schema : List Column) (row : Row) : Bool :=
  decide ((row : List Value).length = schema.length) &&
  (schema.zip (row : List Value)).all (fun p => encValueOk p.1.type p.2)

/-- A stored pair (id within `int` range, row codec-valid). -/
def encPairOk (schema : List Column) (p : Int × Row) : Bool :=
  decide (-2147483648 ≤ p.1) && decide (p.1 < 2147483648) && encRowOk schema p.2

/-- A table whose schema and rows survive the codec: in the C++ original
these bounds are enforced by the machine types themselves. -/
def tableEncOk (t : Table) : Bool :=
  decide (t.schema.length < 18446744073709551616) &&
  decide (t.data.length < 18446744073709551616) &&
  t.schema.all (fun c => decide (c.name.data.length < 2147483648)) &&
  t.data.all (fun p => encPairOk t.schema p)

-- ===================== Helper lemmas: association lists =====================

theorem alistFind?_eq_none {α β : Type} [DecidableEq α] (l : List (α × β)) (k : α) :
    alistFind? l k = none ↔ ∀ p ∈ l, p.1 ≠ k := by
  induction l with
  | nil => simp [alistFind?]
  | cons p ps ih =>
    by_cases h : p.1 = k
    · simp [alistFind?, h]
    · simp [alistFind?, h, ih]

theorem alistInsert_absent {α β : Type} [DecidableEq α] (l : List (α × β)) (k : α) (v : β)
    (h : alistFind? l k = none) : alistInsert l k v = l ++ [(k, v)] := by
  simp [alistInsert, h]

theorem alistFind?_append_of_none {α β : Type} [DecidableEq α]
    (l1 l2 : List (α × β)) (k : α) (h : alistFind? l1 k = none) :
    alistFind? (l1 ++ l2) k = alistFind? l2 k := by
  induction l1 with
  | nil => simp
  | cons p ps ih =>
    simp only [alistFind?] at h ⊢
    by_cases hpk : p.1 = k
    · rw [if_pos hpk] at h
      simp at h
    · rw [if_neg hpk] at h ⊢
      exact ih h

theorem alistFind?_insert_self {α β : Type} [DecidableEq α] (l : List (α × β)) (k : α) (v : β) :
    alistFind? (alistInsert l k v) k = some v := by
  unfold alistInsert
  split
  · rename_i h
    induction l with
    | nil => simp [alistFind?] at h
    | cons p ps ih =>
      by_cases hpk : p.1 = k
      · simp [alistFind?, hpk]
      · simp only [alistFind?, hpk, if_false, if_neg hpk, List.map_cons] at h ⊢
        exact ih h
  · rename_i h
    have h0 : alistFind? l k = none := by
      cases hc : alistFind? l k
      · rfl
      · rw [hc] at h
        simp at h
    rw [alistFind?_append_of_none l [(k, v)] k h0]
    simp [alistFind?]

theorem alistInsert_insert_absent {α β : Type} [DecidableEq α]
    (l : List (α × β)) (k : α) (a b : β) (h : alistFind? l k = none) :
    alistInsert (alistInsert l k a) k b = l ++ [(k, b)] := by
  rw [alistInsert_absent l k a h]
  unfold alistInsert
  rw [alistFind?_append_of_none l [(k, a)] k h]
  simp only [alistFind?, if_pos rfl, Option.isSome_some, if_true, List.map_append]
  have hl : ∀ p ∈ l, p.1 ≠ k := (alistFind?_eq_none l k).mp h
  have hmap : List.map (fun p => if p.1 = k then (k, b) else p) l = l := by
    calc List.map (fun p => if p.1 = k then (k, b) else p) l
        = List.map id l := List.map_congr_left (fun p hp => by rw [if_neg (hl p hp)]; rfl)
      _ = l := List.map_id l
  rw [hmap]
  simp

-- ===================== Helper lemmas: row validation and index update =====================

theorem validateRow_length (schema : List Column) (row : Row)
    (h : validateRow schema row = none) : (row : List Value).length = schema.length := by
  unfold validateRow at h
  by_cases hl : (row : List Value).length = schema.length
  · exact hl
  · rw [if_pos hl] at h
    simp at h

theorem validateRow_all (schema : List Column) (row : Row)
    (h : validateRow schema row = none) :
    ((schema.zip (row : List Value)).all (fun p => valueMatches p.1.type p.2)) = true := by
  unfold validateRow at h
  rw [if_neg (by simp [validateRow_length schema row h])] at h
  by_cases ha : ((schema.zip (row : List Value)).all (fun p => valueMatches p.1.type p.2)) = true
  · exact ha
  · rw [if_neg ha] at h
    simp at h

theorem zip_all_get {schema : List Column} {row : List Value}
    (hlen : row.length = schema.length)
    (hall : ((schema.zip row).all (fun p => valueMatches p.1.type p.2)) = true) :
    ∀ (k : Nat) (c : Column), schema.get? k = some c →
      ∃ v, row.get? k = some v ∧ valueMatches c.type v = true := by
  induction schema generalizing row with
  | nil => intro k c hc; simp at hc
  | cons c0 cs ih =>
    match row with
    | [] => simp at hlen
    | v0 :: vs =>
      simp only [List.zip_cons_cons, List.all_cons, Bool.and_eq_true] at hall
      intro k c hc
      match k with
      | 0 =>
        simp at hc
        subst hc
        exact ⟨v0, rfl, hall.1⟩
      | k + 1 =>
        simp only [List.get?] at hc ⊢
        exact ih (by simpa using hlen) hall.2 k c hc

theorem updateIndex_data (t : Table) (id : Int) (row : Row) :
    (Table.updateIndex t id row).1.data = t.data := by
  unfold Table.updateIndex
  rcases t.stringIndex with _ | idx
  · rfl
  · by_cases h0 : t.indexedColumn = 0
    · simp [h0]
    · simp only [if_neg h0]
      rcases hv : (row : List Value).get? t.indexedColumn with _ | v
      · rfl
      · cases v <;> rfl

theorem updateIndex_none_of (t : Table) (id : Int) (row : Row)
    (h : t.stringIndex = none ∨ t.indexedColumn = 0 ∨
      ∃ s, (row : List Value).get? t.indexedColumn = some (Value.strV s)) :
    (Table.updateIndex t id row).2 = none := by
  unfold Table.updateIndex
  split
  · rfl
  · rename_i idx hsi
    split
    · rfl
    · rename_i h0
      split
      · rename_i hget
        rcases h with h | h | ⟨s, hs⟩
        · rw [h] at hsi
          exact absurd hsi (by simp)
        · exact absurd h h0
        · rw [hs] at hget
          simp at hget
      · rename_i v hget
        rcases h with h | h | ⟨s, hs⟩
        · rw [h] at hsi
          exact absurd hsi (by simp)
        · exact absurd h h0
        · rw [hs] at hget
          simp at hget
      · rfl

-- ===================== Claim C7 =====================

/-- Claim C7: when id `i` is present and `r2` is a schema-valid row whose
primary-key field differs from `i`, `update` fails with the
primary-key-immutable error and leaves the table (rows and index) exactly
unchanged. -/
theorem update_pk_immutable (t : Table) (i v : Int) (r2 : Row)
    (hp : (alistFind? t.data i).isSome = true)
    (hv : validateRow t.schema r2 = none)
    (h0 : (r2 : List Value).get? 0 = some (Value.intV v))
    (hne : v ≠ i) :
    t.update i r2 = (t, some "Cannot change primary key") := by
  unfold Table.update
  rw [if_neg (by simp [Option.isNone_iff_eq_none]; intro hc; rw [hc] at hp; simp at hp)]
  rw [hv, h0]
  simp [hne]

/-- Witness for C7 at a concrete table and row. -/
theorem update_pk_immutable_witness :
    (⟨fixedSchema, [(1, [Value.intV 1, Value.strV "a"])], none, 0⟩ : Table).update 1
        [Value.intV 2, Value.strV "b"] =
      (⟨fixedSchema, [(1, [Value.intV 1, Value.strV "a"])], none, 0⟩,
       some "Cannot change primary key") :=
  update_pk_immutable _ 1 2 _ (by decide) (by decide) (by decide) (by decide)

-- ===================== Claim C8 =====================

/-- Claim C8: inserting a schema-valid row whose id is not yet present
succeeds, and a subsequent `get` of that id returns exactly the row.
The index hypothesis states the invariant `createIndex` establishes:
any existing index sits on a STRING column. -/
theorem insert_then_get (t : Table) (r : Row) (i : Int)
    (hv : validateRow t.schema r = none)
    (h0 : (r : List Value).get? 0 = some (Value.intV i))
    (habs : alistFind? t.data i = none)
    (hidx : t.stringIndex = none ∨
      ∃ c, t.schema.get? t.indexedColumn = some c ∧ c.type = ColumnType.STRING) :
    (t.insert r).2 = none ∧ (t.insert r).1.get i = Except.ok r := by
  have hstep : t.insert r =
      Table.updateIndex { t with data := alistInsert t.data i r } i r := by
    unfold Table.insert
    rw [hv, h0]
    simp [habs]
  have hidx2 : ({ t with data := alistInsert t.data i r } : Table).stringIndex = none ∨
      ({ t with data := alistInsert t.data i r } : Table).indexedColumn = 0 ∨
      ∃ s, (r : List Value).get? ({ t with data := alistInsert t.data i r } : Table).indexedColumn =
        some (Value.strV s) := by
    rcases hidx with h | ⟨c, hc, hct⟩
    · exact Or.inl h
    · refine Or.inr (Or.inr ?_)
      obtain ⟨v, hvget, hvm⟩ :=
        zip_all_get (validateRow_length t.schema r hv) (validateRow_all t.schema r hv)
          t.indexedColumn c hc
      cases v with
      | intV n =>
        rw [hct] at hvm
        simp [valueMatches] at hvm
      | strV s => exact ⟨s, hvget⟩
  constructor
  · rw [hstep]
    exact updateIndex_none_of _ i r hidx2
  · rw [hstep]
    unfold Table.get
    rw [updateIndex_data]
    show (match alistFind? (alistInsert t.data i r) i with
      | some r => Except.ok r
      | none => Except.error "ID not found") = Except.ok r
    rw [alistFind?_insert_self]

/-- Witness for C8 at a concrete indexed table and row. -/
theorem insert_then_get_witness :
    ((⟨fixedSchema, [(1, [Value.intV 1, Value.strV "a"])], some [("a", [1])], 1⟩ : Table).insert
        [Value.intV 2, Value.strV "b"]).2 = none ∧
    ((⟨fixedSchema, [(1, [Value.intV 1, Value.strV "a"])], some [("a", [1])], 1⟩ : Table).insert
        [Value.intV 2, Value.strV "b"]).1.get 2 = Except.ok [Value.intV 2, Value.strV "b"] :=
  insert_then_get _ _ 2 (by decide) (by decide) (by decide)
    (Or.inr ⟨⟨"name", ColumnType.STRING⟩, by decide, rfl⟩)

-- ===================== Claim C1 (code bug) =====================

/-- Claim C1 is violated by the code: `Table::remove` erases the row from
`data` before calling `removeFromIndex`, whose `data.find(id)` then fails,
so the index entry survives.  Concretely: index on column 1, insert row
`(1, a)`, then remove id 1 — the data is empty, yet the index still holds
the bucket `a ↦ {1}`, a dangling entry for a value no current row has. -/
theorem remove_leaves_dangling_bucket :
    ((((⟨fixedSchema, [], none, 0⟩ : Table).createIndex 1).1.insert
        [Value.intV 1, Value.strV "a"]).1.remove 1) =
      (⟨fixedSchema, [], some [("a", [1])], 1⟩, none) := by
  decide

-- ===================== Claim C4 (code bug) =====================

/-- Claim C4 is violated by the code on its second half: `remove` of a
present id deletes the stored row but not the id's index entry.  With rows
`(1, a)` and `(2, b)` and the index on column 1, `remove 1` deletes row 1
yet leaves the index entry `1` under value `a` in place. -/
theorem remove_keeps_index_entry :
    (((((⟨fixedSchema, [], none, 0⟩ : Table).createIndex 1).1.insert
        [Value.intV 1, Value.strV "a"]).1.insert
        [Value.intV 2, Value.strV "b"]).1.remove 1) =
      (⟨fixedSchema, [(2, [Value.intV 2, Value.strV "b"])],
        some [("a", [1]), ("b", [2])], 1⟩, none) := by
  decide

-- ===================== Claim C6 =====================

/-- Counterexample to claim C6 as stated: `load` on an absent file returns
without touching the table, so a table that already holds a row is NOT left
empty by the call. -/
theorem load_absent_file_cex :
    ((⟨fixedSchema, [(1, [Value.intV 1, Value.strV "pen"])], none, 0⟩ : Table).load none =
      (⟨fixedSchema, [(1, [Value.intV 1, Value.strV "pen"])], none, 0⟩, none)) ∧
    (⟨fixedSchema, [(1, [Value.intV 1, Value.strV "pen"])], none, 0⟩ : Table).data ≠ [] := by
  decide

/-- Claim C6 amended: `load` on an absent file is not an error and leaves
the table exactly as it was (in particular, a freshly constructed — hence
empty — table stays empty). -/
theorem load_absent_file_noop (t : Table) : t.load none = (t, none) := rfl

-- ===================== Claim C2: counterexample =====================

/-- Counterexample to claim C2 as stated: loading a file saved under a
one-column schema into a two-column table that holds a row does fail with
`Schema mismatch`, but the table's rows were cleared before the check, so
the existing data is destroyed rather than left as it was. -/
theorem load_schema_mismatch_cex :
    ((⟨fixedSchema, [(1, [Value.intV 1, Value.strV "pen"])], none, 0⟩ : Table).load
        (some (Table.save ⟨[⟨"id", ColumnType.INT⟩], [], none, 0⟩)) =
      (⟨fixedSchema, [], none, 0⟩, some "Schema mismatch")) ∧
    (⟨fixedSchema, [(1, [Value.intV 1, Value.strV "pen"])], none, 0⟩ : Table).data ≠ [] := by
  decide

-- ===================== Claim C3: counterexample =====================

/-- Counterexample to claim C3 as stated: after `CREATE DATABASE a`
succeeds, the name `b` is not registered, yet `CREATE DATABASE b` fails —
`parseCreate` refuses whenever any database is currently selected, so
"fails iff the name is already registered" does not hold. -/
theorem parseCreate_unregistered_name_fails_cex :
    ((parseCreate ⟨[], none⟩ [] (tokenize "CREATE DATABASE a")).2 = none) ∧
    (alistFind? (parseCreate ⟨[], none⟩ [] (tokenize "CREATE DATABASE a")).1.databases "b" =
      none) ∧
    ((parseCreate (parseCreate ⟨[], none⟩ [] (tokenize "CREATE DATABASE a")).1 []
        (tokenize "CREATE DATABASE b")).2 =
      some "Database already selected. Use DROP DATABASE first.") := by
  decide

-- ===================== Helper lemmas: tokenizer =====================

theorem lexStep_inString (st : LexState) (c : Char) :
    (lexStep st c).inString = if c = quoteChar then !st.inString else st.inString := by
  unfold lexStep
  by_cases hq : c = quoteChar
  · rw [if_pos hq, if_pos hq]
    by_cases hi : st.inString = true
    · rw [if_pos hi, hi]
      rfl
    · have h0 : st.inString = false := by
        cases h : st.inString
        · rfl
        · exact absurd h hi
      rw [if_neg hi, h0]
      rfl
  · rw [if_neg hq, if_neg hq]
    by_cases hi : st.inString = true
    · rw [if_pos hi, hi]
    · have h0 : st.inString = false := by
        cases h : st.inString
        · rfl
        · exact absurd h hi
      rw [if_neg hi, h0]
      split
      · split
        · exact h0
        · rfl
      · split
        · rfl
        · rfl

theorem foldl_inString (p : List Char) (st : LexState) :
    (p.foldl lexStep st).inString =
      if p.count quoteChar % 2 = 1 then !st.inString else st.inString := by
  induction p generalizing st with
  | nil => simp
  | cons c cs ih =>
    rw [List.foldl_cons, ih, lexStep_inString]
    by_cases hq : c = quoteChar
    · rw [if_pos hq]
      have hcount : (c :: cs).count quoteChar = cs.count quoteChar + 1 := by
        simp [List.count_cons, hq]
      rw [hcount]
      rcases Nat.mod_two_eq_zero_or_one (cs.count quoteChar) with h | h
      · have h1 : (cs.count quoteChar + 1) % 2 = 1 := by omega
        simp [h, h1]
      · have h1 : (cs.count quoteChar + 1) % 2 = 0 := by omega
        simp [h, h1]
    · rw [if_neg hq]
      have hcount : (c :: cs).count quoteChar = cs.count quoteChar := by
        simp [List.count_cons, hq]
      rw [hcount]

theorem foldl_inString_run (s : List Char) (st : LexState)
    (h1 : st.inString = true) (h2 : ∀ c ∈ s, c ≠ quoteChar) :
    s.foldl lexStep st = ⟨st.tokens, st.token ++ s, true⟩ := by
  induction s generalizing st with
  | nil =>
    obtain ⟨tks, tok, ins⟩ := st
    simp only at h1
    subst h1
    simp
  | cons c cs ih =>
    have hc : c ≠ quoteChar := h2 c (by simp)
    rw [List.foldl_cons]
    have hstep : lexStep st c = ⟨st.tokens, st.token ++ [c], true⟩ := by
      unfold lexStep
      rw [if_neg hc, if_pos h1]
    rw [hstep, ih ⟨st.tokens, st.token ++ [c], true⟩ rfl (fun d hd => h2 d (by simp [hd]))]
    simp

theorem foldl_plain_run (p : List Char) (st : LexState)
    (h1 : st.inString = false) (h2 : ∀ c ∈ p, isPlainChar c = true) :
    p.foldl lexStep st = ⟨st.tokens, st.token ++ p, false⟩ := by
  induction p generalizing st with
  | nil =>
    obtain ⟨tks, tok, ins⟩ := st
    simp only at h1
    subst h1
    simp
  | cons c cs ih =>
    have hc := h2 c (by simp)
    simp only [isPlainChar, Bool.and_eq_true, Bool.not_eq_true', decide_eq_false_iff_not] at hc
    rw [List.foldl_cons]
    have hstep : lexStep st c = ⟨st.tokens, st.token ++ [c], false⟩ := by
      unfold lexStep
      rw [if_neg hc.1.1, if_neg (by rw [h1]; simp), if_neg (by rw [hc.1.2]; simp),
        if_neg (by rw [hc.2]; simp), h1]
    rw [hstep, ih ⟨st.tokens, st.token ++ [c], false⟩ rfl (fun d hd => h2 d (by simp [hd]))]
    simp

-- ===================== Claim C9 =====================

/-- Claim C9: on a line whose final single-quote is an unmatched opener
(even number of quotes before it, none after it), `tokenize` terminates
normally and everything accumulated after that quote is emitted — joined to
the pending accumulator — through the ordinary end-of-input flush, hence
classified by `classify` (Keyword, Integer or Identifier, never a Text
token), or yields no extra token at all when the accumulator is empty. -/
theorem tokenize_unterminated_quote (p s : List Char)
    (hp : p.count quoteChar % 2 = 0) (hs : ∀ c ∈ s, c ≠ quoteChar) :
    tokenize (String.mk (p ++ quoteChar :: s)) =
      (p.foldl lexStep lexInit).tokens ++
        (if ((p.foldl lexStep lexInit).token ++ s).isEmpty then []
         else [classify ((p.foldl lexStep lexInit).token ++ s)]) ∧
    ∀ cs : List Char, (classify cs).type ≠ TokenType.STRING := by
  constructor
  · have hdata : (String.mk (p ++ quoteChar :: s)).data = p ++ quoteChar :: s := rfl
    have hins : (p.foldl lexStep lexInit).inString = false := by
      rw [foldl_inString, if_neg (by omega)]
      rfl
    have hstep : ∀ st : LexState, st.inString = false →
        lexStep st quoteChar = ⟨st.tokens, st.token, true⟩ := by
      intro st h
      unfold lexStep
      rw [if_pos rfl, if_neg (by rw [h]; simp)]
    have hfold : (p ++ quoteChar :: s).foldl lexStep lexInit =
        ⟨(p.foldl lexStep lexInit).tokens, (p.foldl lexStep lexInit).token ++ s, true⟩ := by
      rw [List.foldl_append, List.foldl_cons, hstep _ hins]
      exact foldl_inString_run s _ rfl hs
    unfold tokenize
    rw [hdata, hfold]
    by_cases he : (((p.foldl lexStep lexInit).token ++ s).isEmpty) = true
    · rw [if_pos he, if_pos he]
      simp
    · rw [if_neg he, if_neg he]
      rfl
  · intro cs
    unfold classify
    split
    · simp
    · split <;> simp

/-- Witness for C9 on the line `a <quote>bc`: the trailing characters are
flushed as one Identifier token, not a Text token. -/
theorem tokenize_unterminated_quote_witness :
    (tokenize (String.mk (['a', ' '] ++ quoteChar :: ['b', 'c'])) =
      (['a', ' '].foldl lexStep lexInit).tokens ++
        (if (((['a', ' '].foldl lexStep lexInit).token ++ ['b', 'c']).isEmpty) then []
         else [classify ((['a', ' '].foldl lexStep lexInit).token ++ ['b', 'c'])])) ∧
    (classify ['x']).type ≠ TokenType.STRING :=
  ⟨(tokenize_unterminated_quote ['a', ' '] ['b', 'c'] (by decide) (by decide)).1,
   (tokenize_unterminated_quote ['a', ' '] ['b', 'c'] (by decide) (by decide)).2 ['x']⟩

-- ===================== Claim C10 =====================

/-- Claim C10: an opening quote does not flush the pending accumulator —
for plain characters directly followed by a quoted literal, `tokenize`
emits one single Text token holding the concatenation of both parts. -/
theorem tokenize_pending_joins_quoted (pre q : List Char)
    (_hpre : pre ≠ [])
    (hplain : ∀ c ∈ pre, isPlainChar c = true)
    (hq : ∀ c ∈ q, c ≠ quoteChar) :
    tokenize (String.mk (pre ++ quoteChar :: (q ++ [quoteChar]))) =
      [⟨TokenType.STRING, String.mk (pre ++ q)⟩] := by
  have hdata : (String.mk (pre ++ quoteChar :: (q ++ [quoteChar]))).data =
      pre ++ quoteChar :: (q ++ [quoteChar]) := rfl
  have h1 : pre.foldl lexStep lexInit = ⟨[], pre, false⟩ := by
    have h := foldl_plain_run pre lexInit rfl hplain
    simpa using h
  have hstep1 : lexStep (⟨[], pre, false⟩ : LexState) quoteChar = ⟨[], pre, true⟩ := by
    unfold lexStep
    rw [if_pos rfl, if_neg (by simp)]
  have h2 : q.foldl lexStep (⟨[], pre, true⟩ : LexState) = ⟨[], pre ++ q, true⟩ :=
    foldl_inString_run q _ rfl hq
  have hstep2 : lexStep (⟨[], pre ++ q, true⟩ : LexState) quoteChar =
      ⟨[⟨TokenType.STRING, String.mk (pre ++ q)⟩], [], false⟩ := by
    unfold lexStep
    rw [if_pos rfl, if_pos rfl]
    simp
  unfold tokenize
  rw [hdata, List.foldl_append, h1, List.foldl_cons, hstep1, List.foldl_append, h2,
    List.foldl_cons, List.foldl_nil, hstep2]
  rfl

/-- Witness for C10 on the input `abc<quote>def<quote>`: one Text token
`abcdef`. -/
theorem tokenize_pending_joins_quoted_witness :
    tokenize (String.mk (['a', 'b', 'c'] ++ quoteChar :: (['d', 'e', 'f'] ++ [quoteChar]))) =
      [⟨TokenType.STRING, String.mk (['a', 'b', 'c'] ++ ['d', 'e', 'f'])⟩] :=
  tokenize_pending_joins_quoted ['a', 'b', 'c'] ['d', 'e', 'f']
    (by decide) (by decide) (by decide)

-- ===================== Helper lemmas: codec =====================

theorem byteLE_length (k n : Nat) : (byteLE k n).length = k := by
  induction k generalizing n with
  | zero => rfl
  | succ k ih => simp [byteLE, ih]

theorem unByteLE_byteLE (k n : Nat) : unByteLE (byteLE k n) = n % 256 ^ k := by
  induction k generalizing n with
  | zero => simp [byteLE, unByteLE, Nat.mod_one]
  | succ k ih =>
    simp only [byteLE, unByteLE, ih]
    conv_rhs => rw [pow_succ, Nat.mul_comm, Nat.mod_mul]

theorem readBytes_exact (l rest : List Nat) :
    readBytes l.length (l ++ rest) = .ok (l, rest) := by
  induction l with
  | nil => rfl
  | cons b bs ih => simp [readBytes, ih]

theorem readSize_eq (f bs rest : List Nat) (h : readBytes 8 f = .ok (bs, rest)) :
    readSize f = .ok (unByteLE bs, rest) := by
  unfold readSize
  rw [h]

theorem readInt_eq (f bs rest : List Nat) (h : readBytes 4 f = .ok (bs, rest)) :
    readInt f = .ok (decInt bs, rest) := by
  unfold readInt
  rw [h]

theorem readStr_eq (n : Nat) (f bs rest : List Nat) (h : readBytes n f = .ok (bs, rest)) :
    readStr n f = .ok (String.mk (bs.map Char.ofNat), rest) := by
  unfold readStr
  rw [h]

theorem readSize_enc (n : Nat) (rest : List Nat) (h : n < 18446744073709551616) :
    readSize (encSize n ++ rest) = .ok (n, rest) := by
  have hb : readBytes 8 (encSize n ++ rest) =
      .ok (byteLE 8 (n % 18446744073709551616), rest) := by
    rw [show (8 : Nat) = (byteLE 8 (n % 18446744073709551616)).length from
      (byteLE_length 8 _).symm]
    exact readBytes_exact _ _
  rw [readSize_eq _ _ _ hb, unByteLE_byteLE]
  have hmod : n % 18446744073709551616 % 256 ^ 8 = n := by
    have h256 : (256 : Nat) ^ 8 = 18446744073709551616 := by norm_num
    rw [h256]
    omega
  rw [hmod]

theorem readInt_enc (v : Int) (rest : List Nat)
    (h1 : -2147483648 ≤ v) (h2 : v < 2147483648) :
    readInt (encInt v ++ rest) = .ok (v, rest) := by
  have hb : readBytes 4 (encInt v ++ rest) =
      .ok (byteLE 4 (v % 4294967296).toNat, rest) := by
    rw [show (4 : Nat) = (byteLE 4 (v % 4294967296).toNat).length from
      (byteLE_length 4 _).symm]
    exact readBytes_exact _ _
  rw [readInt_eq _ _ _ hb]
  unfold decInt
  rw [unByteLE_byteLE]
  have h256 : (256 : Nat) ^ 4 = 4294967296 := by norm_num
  rw [h256]
  have hgoal : (if (v % 4294967296).toNat % 4294967296 % 4294967296 < 2147483648
      then (((v % 4294967296).toNat % 4294967296 % 4294967296 : Nat) : Int)
      else (((v % 4294967296).toNat % 4294967296 % 4294967296 : Nat) : Int) - 4294967296) = v := by
    omega
  rw [hgoal]

theorem readStr_enc (s : String) (rest : List Nat) :
    readStr s.data.length (encStr s ++ rest) = .ok (s, rest) := by
  have hb : readBytes s.data.length (encStr s ++ rest) = .ok (encStr s, rest) := by
    rw [show s.data.length = (encStr s).length by simp [encStr]]
    exact readBytes_exact _ _
  rw [readStr_eq _ _ _ _ hb]
  unfold encStr
  rw [List.map_map]
  have hmap : s.data.map (Char.ofNat ∘ Char.toNat) = s.data := by
    calc s.data.map (Char.ofNat ∘ Char.toNat)
        = s.data.map id := List.map_congr_left (fun c _ => Char.ofNat_toNat c)
      _ = s.data := List.map_id s.data
  rw [hmap]

theorem readColRecord_enc (c : Column) (rest : List Nat)
    (h : c.name.data.length < 2147483648) :
    readColRecord (encColumn c ++ rest) = .ok ((c.name, colTypeTag c.type), rest) := by
  have harr : encColumn c ++ rest =
      encInt ((c.name.data.length : Int)) ++
        (encStr c.name ++ (encInt (colTypeTag c.type) ++ rest)) := by
    simp [encColumn, List.append_assoc]
  have h1 : readInt (encInt ((c.name.data.length : Int)) ++
        (encStr c.name ++ (encInt (colTypeTag c.type) ++ rest))) =
      .ok (((c.name.data.length : Int)), encStr c.name ++ (encInt (colTypeTag c.type) ++ rest)) :=
    readInt_enc _ _ (by omega) (by exact_mod_cast h)
  have h3 : readStr ((c.name.data.length : Int)).toNat
        (encStr c.name ++ (encInt (colTypeTag c.type) ++ rest)) =
      .ok (c.name, encInt (colTypeTag c.type) ++ rest) := by
    rw [Int.toNat_natCast]
    exact readStr_enc _ _
  have h4 : readInt (encInt (colTypeTag c.type) ++ rest) = .ok (colTypeTag c.type, rest) :=
    readInt_enc _ _ (by cases c.type <;> decide) (by cases c.type <;> decide)
  rw [harr]
  unfold readColRecord
  simp only [h1]
  rw [if_neg (by omega)]
  simp only [h3, h4]

theorem checkSchemaCols_enc (schema : List Column) (rest : List Nat)
    (h : ∀ c ∈ schema, c.name.data.length < 2147483648) :
    checkSchemaCols schema (schema.flatMap encColumn ++ rest) = .ok rest := by
  induction schema with
  | nil => rfl
  | cons c cs ih =>
    have harr : (c :: cs).flatMap encColumn ++ rest =
        encColumn c ++ (cs.flatMap encColumn ++ rest) := by
      simp [List.append_assoc]
    rw [harr]
    unfold checkSchemaCols
    simp only [readColRecord_enc c _ (h c (by simp))]
    rw [if_neg (by simp)]
    exact ih (fun d hd => h d (by simp [hd]))

theorem checkSchemaCols_records (schema : List Column) :
    ∀ (f : List Nat) (cols : List (String × Int)) (rest : List Nat),
    readColRecords schema.length f = .ok (cols, rest) →
    checkSchemaCols schema f =
      (if cols = schema.map (fun c => (c.name, colTypeTag c.type)) then .ok rest
       else .error "Schema mismatch") := by
  induction schema with
  | nil =>
    intro f cols rest h
    simp only [List.length_nil, readColRecords] at h
    simp only [Except.ok.injEq, Prod.mk.injEq] at h
    obtain ⟨h1, h2⟩ := h
    subst h1
    subst h2
    simp [checkSchemaCols]
  | cons c cs ih =>
    intro f cols rest h
    simp only [List.length_cons, readColRecords] at h
    cases hr : readColRecord f with
    | error e =>
      rw [hr] at h
      simp at h
    | ok pr =>
      obtain ⟨cr, f1⟩ := pr
      rw [hr] at h
      simp only at h
      cases hrs : readColRecords cs.length f1 with
      | error e =>
        rw [hrs] at h
        simp at h
      | ok pr2 =>
        obtain ⟨crs, f2⟩ := pr2
        rw [hrs] at h
        simp only [Except.ok.injEq, Prod.mk.injEq] at h
        obtain ⟨h1, h2⟩ := h
        subst h1
        subst h2
        unfold checkSchemaCols
        simp only [hr]
        by_cases hcr : cr.1 ≠ c.name ∨ cr.2 ≠ colTypeTag c.type
        · rw [if_pos hcr]
          rw [if_neg]
          intro hcontra
          simp only [List.map_cons, List.cons.injEq] at hcontra
          rcases hcr with hcr | hcr
          · exact hcr (by rw [hcontra.1])
          · exact hcr (by rw [hcontra.1])
        · rw [if_neg hcr]
          push_neg at hcr
          rw [ih f1 crs f2 hrs]
          have hcr1 : cr = (c.name, colTypeTag c.type) := by
            obtain ⟨ha, hb⟩ := hcr
            exact Prod.ext ha hb
          subst hcr1
          by_cases hcs : crs = cs.map (fun c => (c.name, colTypeTag c.type))
          · rw [if_pos hcs, if_pos (by simp [hcs])]
          · rw [if_neg hcs, if_neg (by simp [hcs])]

-- ===================== Claim C2: amended theorem =====================

/-- Claim C2 amended: when the file's stored schema header (column count,
names or type tags) disagrees with the table's in-memory schema, `load`
fails with `Schema mismatch` — but the table's rows were already cleared at
the start of `load`, so on error the table is left empty rather than
untouched. -/
theorem load_schema_mismatch_clears (t : Table) (f : List Nat)
    (cnt : Nat) (cols : List (String × Int)) (rest : List Nat)
    (hread : readStoredSchema f = .ok ((cnt, cols), rest))
    (hdis : cnt ≠ t.schema.length ∨
      cols ≠ t.schema.map (fun c => (c.name, colTypeTag c.type))) :
    t.load (some f) =
      ({ t with data := [], stringIndex := t.stringIndex.map (fun _ => []) },
       some "Schema mismatch") := by
  unfold readStoredSchema at hread
  cases hsz : readSize f with
  | error e =>
    rw [hsz] at hread
    simp at hread
  | ok pr =>
    obtain ⟨cnt0, f1⟩ := pr
    rw [hsz] at hread
    simp only at hread
    cases hcr : readColRecords cnt0 f1 with
    | error e =>
      rw [hcr] at hread
      simp at hread
    | ok pr2 =>
      obtain ⟨cols0, f2⟩ := pr2
      rw [hcr] at hread
      simp only [Except.ok.injEq, Prod.mk.injEq] at hread
      obtain ⟨⟨hc1, hc2⟩, hc3⟩ := hread
      subst hc1
      subst hc2
      subst hc3
      unfold Table.load
      simp only [hsz]
      by_cases hne : cnt0 = t.schema.length
      · rw [if_neg (by simp [hne])]
        rcases hdis with hdis | hdis
        · exact absurd hne hdis
        · rw [hne] at hcr
          rw [checkSchemaCols_records t.schema f1 cols0 f2 hcr, if_neg hdis]
      · rw [if_pos (by simpa using hne)]

/-- Witness for the amended C2: loading a file saved under a one-column
schema into a fresh two-column table with one row clears the rows and
reports the mismatch. -/
theorem load_schema_mismatch_clears_witness :
    (⟨fixedSchema, [(1, [Value.intV 1, Value.strV "pen"])], none, 0⟩ : Table).load
        (some (Table.save ⟨[⟨"id", ColumnType.INT⟩], [], none, 0⟩)) =
      (⟨fixedSchema, [], none, 0⟩, some "Schema mismatch") :=
  load_schema_mismatch_clears _ _ 1 [("id", 0)] [0, 0, 0, 0, 0, 0, 0, 0]
    (by rfl) (Or.inl (by decide))

-- ===================== Claim C3: amended theorem =====================

/-- Claim C3 amended: a well-formed `CREATE DATABASE <name>` command fails
whenever any database is currently selected, regardless of `<name>`; when
none is selected it fails iff `<name>` is already registered (assuming the
persisted file for `<name>` loads without error, e.g. is absent); and on
success it constructs the fixed-schema table, loads the persisted file,
builds the index on column 1, registers the table and selects it. -/
theorem parseCreate_spec (st : DBState) (fs : FS) (name : String) (tL tI : Table)
    (hload : (⟨fixedSchema, [], none, 0⟩ : Table).load
        (alistFind? fs (name ++ ".dat")) = (tL, none))
    (hidx : tL.createIndex 1 = (tI, none)) :
    (∀ cur, st.currentDb = some cur →
      parseCreate st fs
          [⟨TokenType.KEYWORD, "CREATE"⟩, ⟨TokenType.KEYWORD, "DATABASE"⟩,
           ⟨TokenType.IDENTIFIER, name⟩] =
        (st, some "Database already selected. Use DROP DATABASE first.")) ∧
    (st.currentDb = none →
      ((alistFind? st.databases name).isSome = true →
        parseCreate st fs
            [⟨TokenType.KEYWORD, "CREATE"⟩, ⟨TokenType.KEYWORD, "DATABASE"⟩,
             ⟨TokenType.IDENTIFIER, name⟩] =
          (st, some "Database already exists")) ∧
      (alistFind? st.databases name = none →
        parseCreate st fs
            [⟨TokenType.KEYWORD, "CREATE"⟩, ⟨TokenType.KEYWORD, "DATABASE"⟩,
             ⟨TokenType.IDENTIFIER, name⟩] =
          (⟨st.databases ++ [(name, tI)], some name⟩, none))) := by
  constructor
  · intro cur hcur
    unfold parseCreate
    rw [hcur]
  · intro hnone
    constructor
    · intro hsome
      obtain ⟨tb, htb⟩ := Option.isSome_iff_exists.mp hsome
      simp [parseCreate, hnone, expectTok, htb]
    · intro hfind
      have hins2 := alistInsert_insert_absent st.databases name
        (⟨fixedSchema, [], none, 0⟩ : Table) tI hfind
      have hnew : Table.new fixedSchema = .ok ⟨fixedSchema, [], none, 0⟩ := rfl
      simp [parseCreate, hnone, expectTok, hfind, hnew, hload, hidx, hins2]

/-- Witness for the amended C3: from the empty registry with no selection
and no persisted file, `CREATE DATABASE shop` registers and selects a fresh
indexed table. -/
theorem parseCreate_spec_witness :
    parseCreate ⟨[], none⟩ []
        [⟨TokenType.KEYWORD, "CREATE"⟩, ⟨TokenType.KEYWORD, "DATABASE"⟩,
         ⟨TokenType.IDENTIFIER, "shop"⟩] =
      (⟨[("shop", ⟨fixedSchema, [], some [], 1⟩)], some "shop"⟩, none) :=
  ((parseCreate_spec ⟨[], none⟩ [] "shop" ⟨fixedSchema, [], none, 0⟩
      ⟨fixedSchema, [], some [], 1⟩ rfl rfl).2 rfl).2 rfl

theorem readField_enc (ct : ColumnType) (v : Value) (rest : List Nat)
    (h : encValueOk ct v = true) :
    readField ct (encField v ++ rest) = .ok (v, rest) := by
  cases ct with
  | INT =>
    cases v with
    | intV n =>
      simp only [encValueOk, Bool.and_eq_true, decide_eq_true_eq] at h
      unfold readField encField
      simp only [readInt_enc n rest h.1 h.2]
    | strV s => simp [encValueOk] at h
  | STRING =>
    cases v with
    | intV n => simp [encValueOk] at h
    | strV s =>
      simp only [encValueOk, decide_eq_true_eq] at h
      unfold readField encField
      have harr : (encInt ((s.data.length : Int)) ++ encStr s) ++ rest =
          encInt ((s.data.length : Int)) ++ (encStr s ++ rest) := by
        simp [List.append_assoc]
      rw [harr]
      simp only [readInt_enc ((s.data.length : Int)) _ (by omega) (by exact_mod_cast h)]
      rw [if_neg (by omega)]
      rw [Int.toNat_natCast]
      simp only [readStr_enc s rest]

theorem readRowFields_enc (schema : List Column) :
    ∀ (row : List Value) (rest : List Nat),
    encRowOk schema row = true →
    readRowFields schema (row.flatMap encField ++ rest) = .ok ((row : Row), rest) := by
  induction schema with
  | nil =>
    intro row rest h
    simp only [encRowOk, Bool.and_eq_true, decide_eq_true_eq] at h
    have hrow : row = [] := List.eq_nil_of_length_eq_zero (by simpa using h.1)
    subst hrow
    rfl
  | cons c cs ih =>
    intro row rest h
    simp only [encRowOk, Bool.and_eq_true, decide_eq_true_eq] at h
    obtain ⟨h1, h2⟩ := h
    cases row with
    | nil => simp at h1
    | cons v vs =>
      simp only [List.zip_cons_cons, List.all_cons, Bool.and_eq_true] at h2
      have harr : (v :: vs).flatMap encField ++ rest =
          encField v ++ (vs.flatMap encField ++ rest) := by
        simp [List.append_assoc]
      rw [harr]
      unfold readRowFields
      simp only [readField_enc c.type v _ h2.1]
      have hvs : encRowOk cs vs = true := by
        simp only [encRowOk, Bool.and_eq_true, decide_eq_true_eq]
        refine ⟨by simpa using h1, h2.2⟩
      simp only [ih vs rest hvs]

theorem loadRows_enc (schema : List Column) :
    ∀ (pairs : List (Int × Row)) (t : Table) (rest : List Nat),
    t.stringIndex = none →
    pairs.all (fun p => encPairOk schema p) = true →
    (∀ p ∈ pairs, alistFind? t.data p.1 = none) →
    (pairs.map Prod.fst).Nodup →
    loadRows schema pairs.length t
        (pairs.flatMap (fun p => encInt p.1 ++ (p.2 : List Value).flatMap encField) ++ rest) =
      ({ t with data := t.data ++ pairs }, none) := by
  intro pairs
  induction pairs with
  | nil =>
    intro t rest hsi hall hfresh hnodup
    simp [loadRows]
  | cons p ps ih =>
    intro t rest hsi hall hfresh hnodup
    obtain ⟨id, row⟩ := p
    simp only [List.all_cons, Bool.and_eq_true] at hall
    obtain ⟨hp, hps⟩ := hall
    simp only [encPairOk, Bool.and_eq_true, decide_eq_true_eq] at hp
    have harr : (((id, row) :: ps : List (Int × Row)).flatMap
          (fun p => encInt p.1 ++ (p.2 : List Value).flatMap encField) ++ rest) =
        encInt id ++ ((row : List Value).flatMap encField ++
          (ps.flatMap (fun p => encInt p.1 ++ (p.2 : List Value).flatMap encField) ++ rest)) := by
      simp [List.append_assoc]
    rw [show (((id, row) :: ps : List (Int × Row)).length) = ps.length + 1 from rfl, harr]
    unfold loadRows
    simp only [readInt_enc id _ hp.1.1 hp.1.2]
    simp only [readRowFields_enc schema (row : List Value) _ hp.2]
    have hfreshp : alistFind? t.data id = none := hfresh (id, row) (by simp)
    have hupd : Table.updateIndex { t with data := alistInsert t.data id row } id row =
        ({ t with data := alistInsert t.data id row }, none) := by
      unfold Table.updateIndex
      simp [hsi]
    simp only [hupd]
    rw [alistInsert_absent t.data id row hfreshp]
    have hnodup2 : (ps.map Prod.fst).Nodup := by
      simp only [List.map_cons, List.nodup_cons] at hnodup
      exact hnodup.2
    have hnotmem : id ∉ ps.map Prod.fst := by
      simp only [List.map_cons, List.nodup_cons] at hnodup
      exact hnodup.1
    have hfresh2 : ∀ q ∈ ps, alistFind? (t.data ++ [(id, row)]) q.1 = none := by
      intro q hq
      rw [alistFind?_append_of_none _ _ _ (hfresh q (by simp [hq]))]
      have hne : id ≠ q.1 := by
        intro hcontra
        exact hnotmem (hcontra ▸ List.mem_map_of_mem Prod.fst hq)
      simp [alistFind?, hne]
    have hih := ih { t with data := t.data ++ [(id, row)] } rest hsi hps hfresh2 hnodup2
    rw [hih]
    simp

-- ===================== Claim C5 =====================

/-- Claim C5: the persistence codec round-trips — saving a table of
codec-representable schema-valid rows and loading the bytes into a freshly
constructed table with the same schema succeeds and yields a table whose
`get` agrees with the original on every id. -/
theorem save_load_roundtrip (t t0 : Table)
    (hnew : Table.new t.schema = .ok t0)
    (henc : tableEncOk t = true)
    (hkeys : (t.data.map Prod.fst).Nodup) :
    (t0.load (some t.save)).2 = none ∧
    ∀ id : Int, (t0.load (some t.save)).1.get id = t.get id := by
  have ht0 : t0 = ⟨t.schema, [], none, 0⟩ := by
    unfold Table.new at hnew
    cases hsch : t.schema with
    | nil =>
      rw [hsch] at hnew
      simp at hnew
    | cons c cs =>
      rw [hsch] at hnew
      by_cases hct : c.type = ColumnType.INT
      · simp [hct] at hnew
        exact hnew.symm
      · simp [hct] at hnew
  subst ht0
  simp only [tableEncOk, Bool.and_eq_true, decide_eq_true_eq] at henc
  obtain ⟨⟨⟨hs64, hd64⟩, hnames⟩, hrows⟩ := henc
  have hnames2 : ∀ c ∈ t.schema, c.name.data.length < 2147483648 := by
    intro c hc
    simpa using List.all_eq_true.mp hnames c hc
  have hsave : Table.save t =
      encSize t.schema.length ++ (t.schema.flatMap encColumn ++
        (encSize t.data.length ++
          (t.data.flatMap (fun p => encInt p.1 ++ (p.2 : List Value).flatMap encField) ++
            []))) := by
    simp [Table.save, List.append_assoc]
  have hloaded : (⟨t.schema, [], none, 0⟩ : Table).load (some (Table.save t)) =
      (⟨t.schema, t.data, none, 0⟩, none) := by
    unfold Table.load
    simp only [hsave, readSize_enc _ _ hs64, Option.map_none']
    simp only [ne_eq, not_true_eq_false, if_false]
    simp only [checkSchemaCols_enc t.schema _ hnames2]
    simp only [readSize_enc _ _ hd64]
    rw [loadRows_enc t.schema t.data ⟨t.schema, [], none, 0⟩ [] rfl hrows
      (by intro p hp; rfl) hkeys]
    simp
  rw [hloaded]
  exact ⟨rfl, fun id => rfl⟩

/-- Witness for C5 at a concrete two-row table. -/
theorem save_load_roundtrip_witness :
    (((⟨fixedSchema, [], none, 0⟩ : Table).load
        (some (Table.save ⟨fixedSchema,
          [(1, [Value.intV 1, Value.strV "pen"]), (2, [Value.intV 2, Value.strV "ink"])],
          none, 0⟩))).2 = none) ∧
    (((⟨fixedSchema, [], none, 0⟩ : Table).load
        (some (Table.save ⟨fixedSchema,
          [(1, [Value.intV 1, Value.strV "pen"]), (2, [Value.intV 2, Value.strV "ink"])],
          none, 0⟩))).1.get 2 =
      (⟨fixedSchema,
        [(1, [Value.intV 1, Value.strV "pen"]), (2, [Value.intV 2, Value.strV "ink"])],
        none, 0⟩ : Table).get 2) :=
  ⟨(save_load_roundtrip
      ⟨fixedSchema,
        [(1, [Value.intV 1, Value.strV "pen"]), (2, [Value.intV 2, Value.strV "ink"])],
        none, 0⟩
      ⟨fixedSchema, [], none, 0⟩ rfl (by decide) (by decide)).1,
   (save_load_roundtrip
      ⟨fixedSchema,
        [(1, [Value.intV 1, Value.strV "pen"]), (2, [Value.intV 2, Value.strV "ink"])],
        none, 0⟩
      ⟨fixedSchema, [], none, 0⟩ rfl (by decide) (by decide)).2 2⟩
